import Mathlib

/-!
Verification of the interval-parsing and timezone-conversion core of
`script.js` (IndiaPanchangam).  The script converts Portland (UTC-8) civil
times to IST (UTC+5:30) via epoch-millisecond arithmetic, parses a
line-oriented almanac file, and resolves the current/next interval at a
given instant.

Modelling conventions:
* Epoch milliseconds are `Int` (all values in range are exact in JS doubles
  for the 4-digit years the file grammar admits).
* `Date.UTC` is modelled by ECMAScript `MakeDay`/`MakeTime` with floor
  division (`Int.ediv`/`Int.emod`, which floor for positive divisors).
* The `Date` getters (`getFullYear`, ...) used by the script are the JS
  local-time getters; they are modelled at host UTC offset 0, under which
  the displayed string is the IST wall clock of the shifted epoch value
  that the script computes.
* JS strings are modelled as `List Char`; `trim`, `toLowerCase`,
  `startsWith`, `split` and the two regular expressions of the script are
  modelled character by character (ASCII case folding, ASCII whitespace).
-/

namespace Script

/-- `const MS_PER_MIN = 60 * 1000`. -/
def MS_PER_MIN : Int := 60 * 1000

/-- `const MS_PER_HOUR = 60 * MS_PER_MIN`. -/
def MS_PER_HOUR : Int := 60 * MS_PER_MIN

/-- `const PST_TO_UTC_H = 8`. -/
def PST_TO_UTC_H : Int := 8

/-- `const UTC_TO_IST_H = 5`. -/
def UTC_TO_IST_H : Int := 5

/-- `const UTC_TO_IST_M = 30`. -/
def UTC_TO_IST_M : Int := 30

/-- Proleptic Gregorian leap year, as in ECMAScript `DaysInYear`. -/
def isLeap (y : Int) : Bool :=
  (y % 4 == 0 && y % 100 != 0) || y % 400 == 0

/-- ECMAScript `DayFromYear`: day number (since 1970-01-01) of 1 January of year `y`. -/
def dayFromYear (y : Int) : Int :=
  365 * (y - 1970) + (y - 1969) / 4 - (y - 1901) / 100
    + (y - 1601) / 400

/-- Length of month `m` (1-based) in a year of the given leapness. -/
def daysInMonth : Bool → Int → Int
  | false, m =>
    if m = 1 then 31 else if m = 2 then 28
    else if m = 3 then 31 else if m = 4 then 30 else if m = 5 then 31
    else if m = 6 then 30 else if m = 7 then 31 else if m = 8 then 31
    else if m = 9 then 30 else if m = 10 then 31 else if m = 11 then 30
    else if m = 12 then 31 else 0
  | true, m =>
    if m = 1 then 31 else if m = 2 then 29
    else if m = 3 then 31 else if m = 4 then 30 else if m = 5 then 31
    else if m = 6 then 30 else if m = 7 then 31 else if m = 8 then 31
    else if m = 9 then 30 else if m = 10 then 31 else if m = 11 then 30
    else if m = 12 then 31 else 0

/-- Days strictly before month `m` (1-based) within its year. -/
def daysBeforeMonth : Bool → Int → Int
  | false, m =>
    if m = 1 then 0 else if m = 2 then 31 else if m = 3 then 59
    else if m = 4 then 90 else if m = 5 then 120
    else if m = 6 then 151 else if m = 7 then 181
    else if m = 8 then 212 else if m = 9 then 243
    else if m = 10 then 273 else if m = 11 then 304
    else if m = 12 then 334 else 0
  | true, m =>
    if m = 1 then 0 else if m = 2 then 31 else if m = 3 then 60
    else if m = 4 then 91 else if m = 5 then 121
    else if m = 6 then 152 else if m = 7 then 182
    else if m = 8 then 213 else if m = 9 then 244
    else if m = 10 then 274 else if m = 11 then 305
    else if m = 12 then 335 else 0

/-- Day number of the civil date `y-m-d` (valid Gregorian inputs). -/
def daysFromCivil (y m d : Int) : Int :=
  dayFromYear y + daysBeforeMonth (isLeap y) m + (d - 1)

/-- ECMAScript `Date.UTC(y, m0, d, hh, mm, ss)` (0-based month `m0`): first
`MakeFullYear` maps two-digit years `0 ≤ y ≤ 99` to `1900 + y`; then
`MakeDay`'s overflow handling `ym = yr + floor(m0/12)`, `mn = m0 mod 12`;
day/hour/minute/second overflow is absorbed by the linear arithmetic. -/
def dateUTC (y m0 d hh mm ss : Int) : Int :=
  let yr := if 0 ≤ y ∧ y ≤ 99 then 1900 + y else y
  (dayFromYear (yr + m0 / 12)
      + daysBeforeMonth (isLeap (yr + m0 / 12)) (m0 % 12 + 1)
      + (d - 1)) * 86400000
    + hh * 3600000 + mm * 60000 + ss * 1000

/-- ECMAScript `YearFromTime` on a day number: the unique `y` with
`dayFromYear y ≤ day < dayFromYear (y+1)`, computed by a 400-year-cycle
estimate plus bounded correction. -/
def yearOfDay (day : Int) : Int :=
  let n := (400 * day) / 146097
  if day < dayFromYear (1970 + n) then 1969 + n
  else if day < dayFromYear (1971 + n) then 1970 + n
  else if day < dayFromYear (1972 + n) then 1971 + n
  else 1972 + n

/-- ECMAScript `MonthFromTime`/`DateFromTime` from a day-of-year:
the 1-based month together with the day-of-month. -/
def monthDate : Bool → Int → Int × Int
  | false, doy =>
    if doy < 31 then (1, doy + 1)
    else if doy < 59 then (2, doy - 30)
    else if doy < 90 then (3, doy - 58)
    else if doy < 120 then (4, doy - 89)
    else if doy < 151 then (5, doy - 119)
    else if doy < 181 then (6, doy - 150)
    else if doy < 212 then (7, doy - 180)
    else if doy < 243 then (8, doy - 211)
    else if doy < 273 then (9, doy - 242)
    else if doy < 304 then (10, doy - 272)
    else if doy < 334 then (11, doy - 303)
    else (12, doy - 333)
  | true, doy =>
    if doy < 31 then (1, doy + 1)
    else if doy < 60 then (2, doy - 30)
    else if doy < 91 then (3, doy - 59)
    else if doy < 121 then (4, doy - 90)
    else if doy < 152 then (5, doy - 120)
    else if doy < 182 then (6, doy - 151)
    else if doy < 213 then (7, doy - 181)
    else if doy < 244 then (8, doy - 212)
    else if doy < 274 then (9, doy - 243)
    else if doy < 305 then (10, doy - 273)
    else if doy < 335 then (11, doy - 304)
    else (12, doy - 334)

/-- `Math.floor(ms / msPerDay)`: epoch day of an epoch millisecond. -/
def epochDay (ms : Int) : Int := ms / 86400000

/-- Day of year of an epoch millisecond. -/
def dayWithinYear (ms : Int) : Int :=
  epochDay ms - dayFromYear (yearOfDay (epochDay ms))

/-- `Date.prototype.getFullYear` (host offset 0). -/
def getFullYear (ms : Int) : Int := yearOfDay (epochDay ms)

/-- `Date.prototype.getMonth` (0-based month, host offset 0). -/
def getMonth (ms : Int) : Int :=
  (monthDate (isLeap (getFullYear ms)) (dayWithinYear ms)).1 - 1

/-- `Date.prototype.getDate` (host offset 0). -/
def getDate (ms : Int) : Int :=
  (monthDate (isLeap (getFullYear ms)) (dayWithinYear ms)).2

/-- `Date.prototype.getHours` (host offset 0). -/
def getHours (ms : Int) : Int := (ms / 3600000) % 24

/-- `Date.prototype.getMinutes` (host offset 0). -/
def getMinutes (ms : Int) : Int := (ms / 60000) % 60

/-- `Date.prototype.getSeconds` (host offset 0). -/
def getSeconds (ms : Int) : Int := (ms / 1000) % 60

/-- `String(n).padStart(2, "0")` on an integer. -/
def pad2 (n : Int) : String :=
  if 0 ≤ n ∧ n < 10 then "0" ++ toString n else toString n

/-- `makeIstFromPortland(y, m, d, hh, mm)` from `script.js`: epoch
milliseconds of the IST-shifted instant. -/
def makeIstFromPortland (y m d hh mm : Int) : Int :=
  dateUTC y (m - 1) d (hh + PST_TO_UTC_H) mm 0
    + UTC_TO_IST_H * MS_PER_HOUR + UTC_TO_IST_M * MS_PER_MIN

/-- `formatDateTime(dt)` from `script.js`: "YYYY/MM/DD HH:MM" via the local
getters (host offset 0; the year is not padded in the source). -/
def formatDateTime (ms : Int) : String :=
  s!"{getFullYear ms}/{pad2 (getMonth ms + 1)}/{pad2 (getDate ms)} {pad2 (getHours ms)}:{pad2 (getMinutes ms)}"

/-- A civil date-time, used to state the specification-side shift. -/
structure CivilTime where
  year : Int
  month : Int
  day : Int
  hour : Int
  minute : Int
deriving DecidableEq, Repr

/-- Validity of a civil time: calendar-valid date, 24h clock, 4-digit year
(the file grammar writes years with exactly four digits). -/
def ValidCivil (c : CivilTime) : Prop :=
  0 ≤ c.year ∧ c.year ≤ 9999 ∧ 1 ≤ c.month ∧ c.month ≤ 12 ∧
    1 ≤ c.day ∧ c.day ≤ daysInMonth (isLeap c.year) c.month ∧
    0 ≤ c.hour ∧ c.hour ≤ 23 ∧ 0 ≤ c.minute ∧ c.minute ≤ 59

instance (c : CivilTime) : Decidable (ValidCivil c) := by
  unfold ValidCivil; infer_instance

/-- Calendar successor of a civil date (specification side). -/
def nextDay (y m d : Int) : Int × Int × Int :=
  if d < daysInMonth (isLeap y) m then (y, m, d + 1)
  else if m < 12 then (y, m + 1, 1)
  else (y + 1, 1, 1)

/-- Specification side: a civil time shifted forward by 13 hours 30 minutes,
with calendar rollover into the next day when the clock passes midnight. -/
def shift1330 (c : CivilTime) : CivilTime :=
  let t := c.hour * 60 + c.minute + 810
  if t < 1440 then
    ⟨c.year, c.month, c.day, t / 60, t % 60⟩
  else
    let n := nextDay c.year c.month c.day
    ⟨n.1, n.2.1, n.2.2, (t - 1440) / 60, (t - 1440) % 60⟩

/-- Render a civil time in the script's "YYYY/MM/DD HH:MM" display shape. -/
def civilStr (c : CivilTime) : String :=
  s!"{c.year}/{pad2 c.month}/{pad2 c.day} {pad2 c.hour}:{pad2 c.minute}"

/-- JS strings are modelled as lists of characters. -/
abbrev JStr := List Char

/-- Whitespace as used by JS `trim` and the regex class `\s`
(ASCII whitespace plus NBSP and BOM; other Unicode spaces do not occur in
the almanac format). -/
def jsIsSpace (c : Char) : Bool :=
  c == ' ' || c == '\t' || c == '\n' || c == '\r' || c == '\x0b' ||
    c == '\x0c' || c == '\u00A0' || c == '\uFEFF'

/-- JS regex `.` (without the `s` flag): any character except line
terminators. -/
def jsDot (c : Char) : Bool :=
  !(c == '\n' || c == '\r' || c == '\u2028' || c == '\u2029')

/-- `String.prototype.trim`. -/
def jsTrim (s : JStr) : JStr :=
  ((s.dropWhile jsIsSpace).reverse.dropWhile jsIsSpace).reverse

/-- `String.prototype.toLowerCase` (ASCII fold). -/
def jsToLower (s : JStr) : JStr := s.map Char.toLower

/-- `a.startsWith(b)`. -/
def jsStartsWith (s pre : JStr) : Bool := pre.isPrefixOf s

/-- `String.prototype.split` with a single-character separator. -/
def jsSplitOn (sep : Char) : JStr → List JStr
  | [] => [[]]
  | c :: rest =>
      if c == sep then [] :: jsSplitOn sep rest
      else
        match jsSplitOn sep rest with
        | h :: t => (c :: h) :: t
        | [] => [[c]]

/-- Consume one literal character. -/
def lit (ch : Char) : JStr → Option JStr
  | c :: r => if c == ch then some r else none
  | [] => none

/-- Regex `(\d{2})`, captured as its numeric value (`Number` of the digits). -/
def digit2 : JStr → Option (Int × JStr)
  | a :: b :: r =>
      if a.isDigit && b.isDigit then
        some (((a.toNat : Int) - 48) * 10 + ((b.toNat : Int) - 48), r)
      else none
  | _ => none

/-- Regex `(\d{4})`, captured as its numeric value. -/
def digit4 : JStr → Option (Int × JStr)
  | a :: b :: c :: d :: r =>
      if a.isDigit && b.isDigit && c.isDigit && d.isDigit then
        some ((((a.toNat : Int) - 48) * 1000 + ((b.toNat : Int) - 48) * 100
          + ((c.toNat : Int) - 48) * 10 + ((d.toNat : Int) - 48)), r)
      else none
  | _ => none

/-- Regex `(\d{4})\/(\d{2})\/(\d{2}) (\d{2}):(\d{2})` matched at the head of
the input: the five captured numbers and the remaining input. -/
def matchStamp (cs : JStr) : Option ((Int × Int × Int × Int × Int) × JStr) := do
  let (y, r1) ← digit4 cs
  let r2 ← lit '/' r1
  let (mo, r3) ← digit2 r2
  let r4 ← lit '/' r3
  let (d, r5) ← digit2 r4
  let r6 ← lit ' ' r5
  let (hh, r7) ← digit2 r6
  let r8 ← lit ':' r7
  let (mi, r9) ← digit2 r8
  pure ((y, mo, d, hh, mi), r9)

/-- The ten numeric captures of the interval-line regex. -/
structure TsPair where
  y1 : Int
  mo1 : Int
  d1 : Int
  h1 : Int
  mi1 : Int
  y2 : Int
  mo2 : Int
  d2 : Int
  h2 : Int
  mi2 : Int
deriving DecidableEq, Repr

/-- The part of the interval-line regex after the name's colon:
`\s*(\d{4})\/(\d{2})\/(\d{2}) (\d{2}):(\d{2}) to (\d{4})\/(\d{2})\/(\d{2}) (\d{2}):(\d{2})$`.
Deterministic: `\s*` is followed by a digit, and every `\d{k}` by a
non-digit literal. -/
def matchTail (cs : JStr) : Option TsPair := do
  let ((y1, mo1, d1, h1, mi1), r1) ← matchStamp (cs.dropWhile jsIsSpace)
  let r2 ← lit ' ' r1
  let r3 ← lit 't' r2
  let r4 ← lit 'o' r3
  let r5 ← lit ' ' r4
  let ((y2, mo2, d2, h2, mi2), r6) ← matchStamp r5
  if r6 = [] then pure ⟨y1, mo1, d1, h1, mi1, y2, mo2, d2, h2, mi2⟩ else none

/-- The lazy group `^(.+?):` of the interval-line regex: try every split
point from the shortest name on, requiring each name character to match `.`
and the remainder after the colon to match `matchTail`.  `pre` accumulates
the name characters already consumed. -/
def scanSplit (pre : JStr) : JStr → Option (JStr × TsPair)
  | [] => none
  | c :: cs =>
      if jsDot c then
        match cs with
        | ':' :: r2 =>
            match matchTail r2 with
            | some t => some (pre ++ [c], t)
            | none => scanSplit (pre ++ [c]) cs
        | _ => scanSplit (pre ++ [c]) cs
      else none

/-- A parsed interval.  The source field `end` is a Lean keyword and is
modelled as `stop`. -/
structure Interval where
  name : JStr
  start : Int
  stop : Int
deriving DecidableEq, Repr

/-- `parseIntervalLine(line)` from `script.js`. -/
def parseIntervalLine (line : JStr) : Option Interval :=
  match scanSplit [] (jsTrim line) with
  | none => none
  | some (nm, t) =>
      some ⟨jsTrim nm, makeIstFromPortland t.y1 t.mo1 t.d1 t.h1 t.mi1,
        makeIstFromPortland t.y2 t.mo2 t.d2 t.h2 t.mi2⟩

/-- `findCurrentAndNext(intervals, now)` from `script.js`. -/
def findCurrentAndNext : List Interval → Int → Option Interval × Option Interval
  | [], _ => (none, none)
  | iv :: rest, now =>
      if iv.start ≤ now ∧ now < iv.stop then (some iv, rest.head?)
      else findCurrentAndNext rest now

/-- `formatTimeRemaining(end, now)` from `script.js`. -/
def formatTimeRemaining (stop now : Int) : String :=
  let ms := stop - now
  if ms ≤ 0 then "Ended just now"
  else
    let totalMinutes := ms / 60000
    let hours := totalMinutes / 60
    let minutes := totalMinutes % 60
    if hours ≤ 0 ∧ minutes ≤ 0 then "Ending now"
    else if hours = 0 then s!"{minutes} minutes remaining"
    else if minutes = 0 then s!"{hours} hours remaining"
    else s!"{hours} hours {minutes} minutes remaining"

/-- `Array.prototype.findIndex`, as an `Option`al index. -/
def findIdxO {α : Type} (p : α → Bool) : List α → Option Nat
  | [] => none
  | a :: rest => if p a then some 0 else (findIdxO p rest).map (· + 1)

/-- The test `/details\s*:$/i.test(trimmed)`: the string ends with
`details`, optional whitespace, and a colon (case-insensitive). -/
def detailsEnd (t : JStr) : Bool :=
  match t.reverse with
  | ':' :: r =>
      jsStartsWith (jsToLower (r.dropWhile jsIsSpace))
        ['s', 'l', 'i', 'a', 't', 'e', 'd']
  | _ => false

/-- `extractSection(lines, startLabel)` from `script.js`: find the first
line whose trimmed form starts with the label (case-sensitive), then keep
raw lines until another `...details:` header that does not itself start
with the label. -/
def extractSection (lines : List JStr) (startLabel : JStr) : List JStr :=
  match findIdxO (fun l => jsStartsWith (jsTrim l) startLabel) lines with
  | none => []
  | some i =>
      (lines.drop (i + 1)).takeWhile
        (fun l => !(detailsEnd (jsTrim l) && !jsStartsWith (jsTrim l) startLabel))

/-- `getHeaderValue(lines, label)` from `script.js`: case-insensitive prefix
match on a trimmed line, then `split(":")[1].trim()` of the raw line. -/
def getHeaderValue (lines : List JStr) (label : JStr) : Option JStr :=
  match lines.find? (fun l => jsStartsWith (jsToLower (jsTrim l)) (jsToLower label)) with
  | none => none
  | some line =>
      match jsSplitOn ':' line with
      | _ :: p1 :: _ => some (jsTrim p1)
      | _ => none

/-- The backend-timestamp regex `(\d{4})\/(\d{2})\/(\d{2}) (\d{2}):(\d{2}):(\d{2})`
matched at the head of the input (unanchored tail: the rest of the input is
ignored). -/
def matchTsAt (cs : JStr) : Option (Int × Int × Int × Int × Int × Int) := do
  let ((y, mo, d, hh, mi), r1) ← matchStamp cs
  let r2 ← lit ':' r1
  let (ss, _) ← digit2 r2
  pure (y, mo, d, hh, mi, ss)

/-- Leftmost match of the backend-timestamp regex anywhere in the input. -/
def findTs : JStr → Option (Int × Int × Int × Int × Int × Int)
  | [] => none
  | c :: cs =>
      match matchTsAt (c :: cs) with
      | some f => some f
      | none => findTs cs

/-- `convertBackendTimestampPstToIst(rawTs)` from `script.js`: convert the
first embedded `YYYY/MM/DD HH:MM:SS` from PST to IST and return only the
re-formatted timestamp; return the input unchanged when the pattern is
absent. -/
def convertBackendTimestampPstToIst (rawTs : JStr) : JStr :=
  match findTs rawTs with
  | none => rawTs
  | some (y, mo, d, hh, mm, ss) =>
      let utcMs := dateUTC y (mo - 1) d (hh + PST_TO_UTC_H) mm ss
      let istMs := utcMs + UTC_TO_IST_H * MS_PER_HOUR + UTC_TO_IST_M * MS_PER_MIN
      (s!"{getFullYear istMs}/{pad2 (getMonth istMs + 1)}/{pad2 (getDate istMs)} {pad2 (getHours istMs)}:{pad2 (getMinutes istMs)}:{pad2 (getSeconds istMs)}").data

/-! Specification-side definitions, written from the spec's wording, to be
compared with the translated code above. -/

/-- Spec side (C3): does the interval contain `now` (inclusive start,
exclusive end)? -/
def hits (now : Int) (iv : Interval) : Bool :=
  decide (iv.start ≤ now) && decide (now < iv.stop)

/-- Spec side (C3): index of the first interval containing `now`. -/
def firstHitIdx : List Interval → Int → Option Nat
  | [], _ => none
  | iv :: rest, now =>
      if hits now iv then some 0 else (firstHitIdx rest now).map (· + 1)

/-- Spec side (C3): the current interval is the first containing `now`. -/
def specCurrent (l : List Interval) (now : Int) : Option Interval :=
  (firstHitIdx l now).bind l.get?

/-- Spec side (C3): the next interval is the index-successor of the current
one, or `none`. -/
def specNext (l : List Interval) (now : Int) : Option Interval :=
  (firstHitIdx l now).bind (fun i => l.get? (i + 1))

/-- Spec side (C5, C6): the split of the trimmed line at (0-based) position
`i` is valid: a non-empty all-`.` name of length `i`, a colon, and a
remainder matching the timestamp tail. -/
def tailAt (t : JStr) (i : Nat) : Bool :=
  decide (1 ≤ i) && (t.take i).all jsDot &&
    ((t.drop i).head? == some ':') && (matchTail (t.drop i).tail).isSome

/-- Spec side (C6): the trimmed line matches the interval-line grammar
(some split point is valid). -/
def grammarMatch (t : JStr) : Bool := (List.range (t.length + 1)).any (tailAt t)

/-- Spec side (C4): the value of a matched header line per the amended
reading: the text between the first and the second colon, trimmed; `none`
without a colon. -/
def betweenColons (line : JStr) : Option JStr :=
  match line.dropWhile (fun c => !(c == ':')) with
  | [] => none
  | _ :: r => some (jsTrim (r.takeWhile (fun c => !(c == ':'))))

/-- Spec side (C4): `getHeaderValue` per the amended claim. -/
def specHeaderValue (lines : List JStr) (label : JStr) : Option JStr :=
  match lines.find? (fun l => jsStartsWith (jsToLower (jsTrim l)) (jsToLower label)) with
  | none => none
  | some line => betweenColons line

/-- Spec side (C9): the terminator test for a section: a distinct
`...details:` header. -/
def sectionStop (startLabel : JStr) (l : JStr) : Bool :=
  detailsEnd (jsTrim l) && !jsStartsWith (jsTrim l) startLabel

/-- Spec side (C9): `extractSection` per the claim: the lines strictly
between the first label line and the next distinct `...details:` line, or
all remaining lines when no such terminator exists; empty when the label is
absent. -/
def specExtract (lines : List JStr) (startLabel : JStr) : List JStr :=
  match findIdxO (fun l => jsStartsWith (jsTrim l) startLabel) lines with
  | none => []
  | some i =>
      let rest := lines.drop (i + 1)
      match findIdxO (sectionStop startLabel) rest with
      | none => rest
      | some j => rest.take j

/-- Spec side (C8): remaining-time rendering per the amended claim, built
from omitted-when-zero phrases. -/
def specRemaining (stop now : Int) : String :=
  if stop - now ≤ 0 then "Ended just now"
  else
    let total := (stop - now) / 60000
    let hours := total / 60
    let minutes := total % 60
    if total = 0 then "Ending now"
    else
      (if hours = 0 then "" else toString hours ++ " hours ")
        ++ (if minutes = 0 then "" else toString minutes ++ " minutes ")
        ++ "remaining"

/-- Spec side (C10): the IST rendering of the six captured backend-timestamp
fields — the whole output of a successful conversion, independent of any
surrounding text in the input. -/
def istFormatChars (y mo d hh mm ss : Int) : JStr :=
  let istMs := dateUTC y (mo - 1) d (hh + 8) mm ss + 19800000
  (s!"{getFullYear istMs}/{pad2 (getMonth istMs + 1)}/{pad2 (getDate istMs)} {pad2 (getHours istMs)}:{pad2 (getMinutes istMs)}:{pad2 (getSeconds istMs)}").data

/-! Calendar lemmas. -/

lemma isLeap_iff (y : Int) :
    isLeap y = true ↔ ((y % 4 = 0 ∧ ¬ y % 100 = 0) ∨ y % 400 = 0) := by
  simp [isLeap]

lemma dayFromYear_succ (y : Int) :
    dayFromYear (y + 1) = dayFromYear y + (if isLeap y then 366 else 365) := by
  simp only [dayFromYear, isLeap, Bool.or_eq_true, Bool.and_eq_true, beq_iff_eq,
    bne_iff_ne, ne_eq]
  split_ifs <;> omega

lemma dayFromYear_mono {a b : Int} (h : a ≤ b) : dayFromYear a ≤ dayFromYear b := by
  simp only [dayFromYear]
  omega

lemma yearOfDay_bracket (day : Int) :
    dayFromYear (yearOfDay day) ≤ day ∧ day < dayFromYear (yearOfDay day + 1) := by
  simp only [yearOfDay, dayFromYear]
  split_ifs <;> constructor <;> (try ring_nf at *) <;> omega

lemma yearOfDay_eq {day y : Int} (h1 : dayFromYear y ≤ day)
    (h2 : day < dayFromYear (y + 1)) : yearOfDay day = y := by
  obtain ⟨b1, b2⟩ := yearOfDay_bracket day
  rcases lt_trichotomy (yearOfDay day) y with h | h | h
  · have := dayFromYear_mono (by omega : yearOfDay day + 1 ≤ y)
    omega
  · exact h
  · have := dayFromYear_mono (by omega : y + 1 ≤ yearOfDay day)
    omega

lemma monthDate_table : ∀ (leap : Bool) (m : Nat), m < 12 → ∀ d : Nat, d < 31 →
    (d : Int) + 1 ≤ daysInMonth leap ((m : Int) + 1) →
    monthDate leap (daysBeforeMonth leap ((m : Int) + 1) + (d : Int)) =
      ((m : Int) + 1, (d : Int) + 1) := by
  decide

lemma month_tables : ∀ (leap : Bool) (m : Nat), m < 12 →
    0 ≤ daysBeforeMonth leap ((m : Int) + 1) ∧
    1 ≤ daysInMonth leap ((m : Int) + 1) ∧
    daysInMonth leap ((m : Int) + 1) ≤ 31 ∧
    daysBeforeMonth leap ((m : Int) + 1) + daysInMonth leap ((m : Int) + 1) ≤
      (if leap then 366 else 365) ∧
    (m < 11 → daysBeforeMonth leap ((m : Int) + 2) =
      daysBeforeMonth leap ((m : Int) + 1) + daysInMonth leap ((m : Int) + 1)) := by
  decide

lemma month_tables_int (leap : Bool) (m : Int) (h1 : 1 ≤ m) (h2 : m ≤ 12) :
    0 ≤ daysBeforeMonth leap m ∧ 1 ≤ daysInMonth leap m ∧
    daysInMonth leap m ≤ 31 ∧
    daysBeforeMonth leap m + daysInMonth leap m ≤ (if leap then 366 else 365) ∧
    (m ≤ 11 → daysBeforeMonth leap (m + 1) =
      daysBeforeMonth leap m + daysInMonth leap m) := by
  have h := month_tables leap (m - 1).toNat (by omega)
  have hm' : ((m - 1).toNat : Int) = m - 1 := Int.toNat_of_nonneg (by omega)
  rw [hm'] at h
  have e1 : m - 1 + 1 = m := by ring
  have e2 : m - 1 + 2 = m + 1 := by ring
  rw [e1, e2] at h
  exact ⟨h.1, h.2.1, h.2.2.1, h.2.2.2.1, fun hle => h.2.2.2.2 (by omega)⟩

lemma monthDate_roundtrip (leap : Bool) (m d : Int) (h1 : 1 ≤ m) (h2 : m ≤ 12)
    (h3 : 1 ≤ d) (h4 : d ≤ daysInMonth leap m) :
    monthDate leap (daysBeforeMonth leap m + d - 1) = (m, d) := by
  have hd31 : d ≤ 31 := by
    have h := (month_tables_int leap m h1 h2).2.2.1
    omega
  have ht := monthDate_table leap (m - 1).toNat (by omega) (d - 1).toNat (by omega)
  have hm' : ((m - 1).toNat : Int) = m - 1 := Int.toNat_of_nonneg (by omega)
  have hd' : ((d - 1).toNat : Int) = d - 1 := Int.toNat_of_nonneg (by omega)
  rw [hm', hd'] at ht
  have e1 : m - 1 + 1 = m := by ring
  have e2 : d - 1 + 1 = d := by ring
  rw [e1, e2] at ht
  have e3 : daysBeforeMonth leap m + (d - 1) = daysBeforeMonth leap m + d - 1 := by ring
  rw [e3] at ht
  exact ht (by omega)

lemma doy_bounds (leap : Bool) (m d : Int) (h1 : 1 ≤ m) (h2 : m ≤ 12)
    (h3 : 1 ≤ d) (h4 : d ≤ daysInMonth leap m) :
    0 ≤ daysBeforeMonth leap m + d - 1 ∧
      daysBeforeMonth leap m + d - 1 < (if leap then 366 else 365) := by
  obtain ⟨hb0, hb1, _, hb2, _⟩ := month_tables_int leap m h1 h2
  cases leap <;> simp at hb2 ⊢ <;> omega

lemma civil_roundtrip {y m d : Int} (h1 : 1 ≤ m) (h2 : m ≤ 12) (h3 : 1 ≤ d)
    (h4 : d ≤ daysInMonth (isLeap y) m) :
    yearOfDay (daysFromCivil y m d) = y ∧
      monthDate (isLeap y) (daysFromCivil y m d - dayFromYear y) = (m, d) := by
  obtain ⟨hb1, hb2⟩ := doy_bounds (isLeap y) m d h1 h2 h3 h4
  have hlow : dayFromYear y ≤ daysFromCivil y m d := by
    simp only [daysFromCivil]; omega
  have hhigh : daysFromCivil y m d < dayFromYear (y + 1) := by
    rw [dayFromYear_succ]
    simp only [daysFromCivil]
    cases h : isLeap y <;> rw [h] at hb2 <;> simp at hb2 ⊢ <;> omega
  refine ⟨yearOfDay_eq hlow hhigh, ?_⟩
  have hrw : daysFromCivil y m d - dayFromYear y = daysBeforeMonth (isLeap y) m + d - 1 := by
    simp only [daysFromCivil]; ring
  rw [hrw]
  exact monthDate_roundtrip _ m d h1 h2 h3 h4

lemma daysInMonth_pos (leap : Bool) (m : Int) (h1 : 1 ≤ m) (h2 : m ≤ 12) :
    1 ≤ daysInMonth leap m :=
  (month_tables_int leap m h1 h2).2.1

lemma daysBeforeMonth_succ (leap : Bool) (m : Int) (h1 : 1 ≤ m) (h2 : m ≤ 11) :
    daysBeforeMonth leap (m + 1) = daysBeforeMonth leap m + daysInMonth leap m :=
  (month_tables_int leap m h1 (by omega)).2.2.2.2 h2

lemma nextDay_valid {y m d : Int} (h1 : 1 ≤ m) (h2 : m ≤ 12) (h3 : 1 ≤ d)
    (h4 : d ≤ daysInMonth (isLeap y) m) :
    1 ≤ (nextDay y m d).2.1 ∧ (nextDay y m d).2.1 ≤ 12 ∧
      1 ≤ (nextDay y m d).2.2 ∧
      (nextDay y m d).2.2 ≤ daysInMonth (isLeap (nextDay y m d).1) (nextDay y m d).2.1 := by
  unfold nextDay
  split_ifs with hd hm
  · dsimp only
    omega
  · refine ⟨by dsimp only; omega, by dsimp only; omega, by dsimp only; omega, ?_⟩
    dsimp only
    have := daysInMonth_pos (isLeap y) (m + 1) (by omega) (by omega)
    omega
  · refine ⟨by dsimp only; omega, by dsimp only; omega, by dsimp only; omega, ?_⟩
    dsimp only
    have := daysInMonth_pos (isLeap (y + 1)) 1 (by omega) (by omega)
    omega

lemma daysFromCivil_nextDay {y m d : Int} (h1 : 1 ≤ m) (h2 : m ≤ 12) (h3 : 1 ≤ d)
    (h4 : d ≤ daysInMonth (isLeap y) m) :
    daysFromCivil (nextDay y m d).1 (nextDay y m d).2.1 (nextDay y m d).2.2 =
      daysFromCivil y m d + 1 := by
  unfold nextDay
  split_ifs with hd hm
  · dsimp only
    simp only [daysFromCivil]
    ring
  · have hdm : d = daysInMonth (isLeap y) m := by omega
    dsimp only
    simp only [daysFromCivil]
    rw [daysBeforeMonth_succ (isLeap y) m h1 (by omega)]
    omega
  · have hm12 : m = 12 := by omega
    subst hm12
    have hd31 : d = 31 := by
      have e1 : daysInMonth false 12 = 31 := by decide
      have e2 : daysInMonth true 12 = 31 := by decide
      cases h : isLeap y <;> rw [h] at h4 hd <;> omega
    subst hd31
    dsimp only
    simp only [daysFromCivil]
    rw [dayFromYear_succ]
    have e3 : daysBeforeMonth false 12 = 334 := by decide
    have e4 : daysBeforeMonth true 12 = 335 := by decide
    have e5 : daysBeforeMonth false 1 = 0 := by decide
    have e6 : daysBeforeMonth true 1 = 0 := by decide
    cases h : isLeap y <;> cases h2 : isLeap (y + 1) <;> norm_num <;> omega

lemma makeIst_decomp (y m d hh mm : Int) (h1 : 1 ≤ m) (h2 : m ≤ 12)
    (hy : ¬(0 ≤ y ∧ y ≤ 99)) :
    makeIstFromPortland y m d hh mm =
      daysFromCivil y m d * 86400000 + (hh * 60 + mm + 810) * 60000 := by
  simp only [makeIstFromPortland, dateUTC, daysFromCivil, MS_PER_HOUR, MS_PER_MIN,
    PST_TO_UTC_H, UTC_TO_IST_H, UTC_TO_IST_M]
  rw [if_neg hy]
  have e1 : (m - 1) / 12 = 0 := by omega
  have e2 : (m - 1) % 12 = m - 1 := by omega
  have e3 : m - 1 + 1 = m := by ring
  rw [e1, e2, e3, add_zero]
  ring

lemma getters_decomp (D t : Int) (h0 : 0 ≤ t) (h1 : t < 2880) :
    epochDay (D * 86400000 + t * 60000) = D + t / 1440 ∧
    getHours (D * 86400000 + t * 60000) = (t % 1440) / 60 ∧
    getMinutes (D * 86400000 + t * 60000) = t % 60 := by
  refine ⟨?_, ?_, ?_⟩
  · unfold epochDay; omega
  · unfold getHours; omega
  · unfold getMinutes; omega

/-- C1 (amended): for a valid source civil time whose year is at least 100
(so outside `Date.UTC`'s `MakeFullYear` two-digit remap of years 0-99 to
1900+year), converting with `makeIstFromPortland` and rendering with
`formatDateTime` displays exactly the source civil time shifted forward by
13 hours 30 minutes, with calendar rollover past midnight.  (The JS
local-time getters are modelled at host offset 0, the reading under which
the displayed string is the intended IST wall clock.) -/
theorem c1_conversion_is_shift_1330 (c : CivilTime) (h : ValidCivil c)
    (h100 : 100 ≤ c.year) :
    formatDateTime (makeIstFromPortland c.year c.month c.day c.hour c.minute) =
      civilStr (shift1330 c) := by
  obtain ⟨hy0, hy1, hm1, hm2, hd1, hd2, hh1, hh2, hmin1, hmin2⟩ := h
  set t : Int := c.hour * 60 + c.minute + 810 with hT
  set D : Int := daysFromCivil c.year c.month c.day with hD
  have hms : makeIstFromPortland c.year c.month c.day c.hour c.minute =
      D * 86400000 + t * 60000 := by
    rw [hD, hT]; exact makeIst_decomp _ _ _ _ _ hm1 hm2 (by omega)
  obtain ⟨hed, hgh, hgm⟩ := getters_decomp D t (by omega) (by omega)
  by_cases hlt : t < 1440
  · have hq : t / 1440 = 0 := by omega
    have hr : t % 1440 = t := by omega
    have hepoch : epochDay (makeIstFromPortland c.year c.month c.day c.hour c.minute) = D := by
      rw [hms, hed, hq, add_zero]
    obtain ⟨hyr, hmd⟩ := civil_roundtrip (y := c.year) hm1 hm2 hd1 hd2
    have hfy : getFullYear (makeIstFromPortland c.year c.month c.day c.hour c.minute) = c.year := by
      rw [getFullYear, hepoch, ← hD] at *
      exact hyr
    have hdwy : dayWithinYear (makeIstFromPortland c.year c.month c.day c.hour c.minute) =
        D - dayFromYear c.year := by
      rw [dayWithinYear, hepoch, getFullYear, hepoch, ← hD] at *
      rw [hyr]
    have hmon : getMonth (makeIstFromPortland c.year c.month c.day c.hour c.minute) + 1 = c.month := by
      rw [getMonth, hfy, hdwy, ← hD] at *
      rw [hmd]
      ring
    have hdat : getDate (makeIstFromPortland c.year c.month c.day c.hour c.minute) = c.day := by
      rw [getDate, hfy, hdwy, ← hD] at *
      rw [hmd]
    have hhou : getHours (makeIstFromPortland c.year c.month c.day c.hour c.minute) = t / 60 := by
      rw [hms, hgh, hr]
    have hmint : getMinutes (makeIstFromPortland c.year c.month c.day c.hour c.minute) = t % 60 := by
      rw [hms, hgm]
    rw [formatDateTime, civilStr, shift1330, ← hT, if_pos hlt]
    rw [hmon, hdat, hhou, hmint, hfy]
  · have hq : t / 1440 = 1 := by omega
    have hr : t % 1440 = t - 1440 := by omega
    have hnv := nextDay_valid (y := c.year) hm1 hm2 hd1 hd2
    have hnd := daysFromCivil_nextDay (y := c.year) hm1 hm2 hd1 hd2
    have hepoch : epochDay (makeIstFromPortland c.year c.month c.day c.hour c.minute) =
        daysFromCivil (nextDay c.year c.month c.day).1 (nextDay c.year c.month c.day).2.1
          (nextDay c.year c.month c.day).2.2 := by
      rw [hms, hed, hq, hnd, hD]
    obtain ⟨hyr, hmd⟩ := civil_roundtrip (y := (nextDay c.year c.month c.day).1)
      hnv.1 hnv.2.1 hnv.2.2.1 hnv.2.2.2
    have hfy : getFullYear (makeIstFromPortland c.year c.month c.day c.hour c.minute) =
        (nextDay c.year c.month c.day).1 := by
      rw [getFullYear, hepoch]
      exact hyr
    have hdwy : dayWithinYear (makeIstFromPortland c.year c.month c.day c.hour c.minute) =
        daysFromCivil (nextDay c.year c.month c.day).1 (nextDay c.year c.month c.day).2.1
            (nextDay c.year c.month c.day).2.2 -
          dayFromYear (nextDay c.year c.month c.day).1 := by
      rw [dayWithinYear, hepoch, hyr]
    have hmon : getMonth (makeIstFromPortland c.year c.month c.day c.hour c.minute) + 1 =
        (nextDay c.year c.month c.day).2.1 := by
      rw [getMonth, hfy, hdwy, hmd]
      ring
    have hdat : getDate (makeIstFromPortland c.year c.month c.day c.hour c.minute) =
        (nextDay c.year c.month c.day).2.2 := by
      rw [getDate, hfy, hdwy, hmd]
    have hhou : getHours (makeIstFromPortland c.year c.month c.day c.hour c.minute) =
        (t - 1440) / 60 := by
      rw [hms, hgh, hr]
    have hmint : getMinutes (makeIstFromPortland c.year c.month c.day c.hour c.minute) =
        (t - 1440) % 60 := by
      rw [hms, hgm]
      omega
    rw [formatDateTime, civilStr, shift1330, ← hT, if_neg hlt]
    rw [hmon, hdat, hhou, hmint, hfy]

/-- Counterexample to C1 as stated: year 25 is a valid source civil time
(the file grammar admits "0025"), but `Date.UTC`'s `MakeFullYear` step maps
years 0-99 to 1900+year, so the program formats the shifted 1925 date —
not the input time shifted by 13h30m. -/
theorem c1_counterexample :
    ValidCivil ⟨25, 12, 4, 23, 50⟩ ∧
    formatDateTime (makeIstFromPortland 25 12 4 23 50) = "1925/12/05 13:20" ∧
    civilStr (shift1330 ⟨25, 12, 4, 23, 50⟩) = "25/12/05 13:20" ∧
    formatDateTime (makeIstFromPortland 25 12 4 23 50) ≠
      civilStr (shift1330 ⟨25, 12, 4, 23, 50⟩) := by
  refine ⟨by decide, by decide, by decide, ?_⟩
  decide

/-- Witness for C1 (amended) at the spec's example: source 2025/12/04 23:50
displays as 2025/12/05 13:20. -/
theorem c1_witness :
    formatDateTime (makeIstFromPortland 2025 12 4 23 50) = "2025/12/05 13:20" := by
  have h := c1_conversion_is_shift_1330 ⟨2025, 12, 4, 23, 50⟩ (by decide) (by decide)
  rw [h]
  rfl

/-! Interval-resolution lemmas (C2, C3). -/

lemma findCurrentAndNext_eq_spec (l : List Interval) (now : Int) :
    findCurrentAndNext l now = (specCurrent l now, specNext l now) := by
  induction l with
  | nil => rfl
  | cons iv rest ih =>
      by_cases h : iv.start ≤ now ∧ now < iv.stop
      · have hb : hits now iv = true := by
          simp [hits, h.1, h.2]
        simp [findCurrentAndNext, h, specCurrent, specNext, firstHitIdx, hb]
        all_goals cases rest <;> simp
      · have hb : hits now iv = false := by
          simp only [hits, Bool.and_eq_false_iff, decide_eq_false_iff_not]
          by_contra hc
          push_neg at hc
          exact h hc
        simp only [findCurrentAndNext, if_neg h, ih, specCurrent, specNext,
          firstHitIdx, hb, if_false, Bool.false_eq_true]
        cases hidx : firstHitIdx rest now with
        | none => simp
        | some i => simp [List.get?]

lemma findCurrent_sound (l : List Interval) (now : Int) (iv : Interval)
    (h : (findCurrentAndNext l now).1 = some iv) :
    iv.start ≤ now ∧ now < iv.stop := by
  induction l with
  | nil => simp [findCurrentAndNext] at h
  | cons jv rest ih =>
      by_cases hj : jv.start ≤ now ∧ now < jv.stop
      · simp only [findCurrentAndNext, if_pos hj] at h
        obtain rfl : jv = iv := by simpa using h
        exact hj
      · simp only [findCurrentAndNext, if_neg hj] at h
        exact ih h

lemma findCurrent_first (l₁ l₂ : List Interval) (iv : Interval) (now : Int)
    (hmiss : ∀ jv ∈ l₁, ¬(jv.start ≤ now ∧ now < jv.stop))
    (h1 : iv.start ≤ now) (h2 : now < iv.stop) :
    (findCurrentAndNext (l₁ ++ iv :: l₂) now).1 = some iv := by
  induction l₁ with
  | nil => simp [findCurrentAndNext, h1, h2]
  | cons jv rest ih =>
      have hj : ¬(jv.start ≤ now ∧ now < jv.stop) := hmiss jv (by simp)
      simp only [List.cons_append, findCurrentAndNext, if_neg hj]
      exact ih (fun kv hk => hmiss kv (by simp [hk]))

/-- C3: `findCurrentAndNext` returns as current the first interval in index
order containing `now` (inclusive start, exclusive end), as next exactly the
index-successor of that interval (`none` past the end), and `(none, none)`
when no interval contains `now`. -/
theorem c3_first_match_and_successor (l : List Interval) (now : Int) :
    findCurrentAndNext l now =
      ((firstHitIdx l now).bind l.get?,
        (firstHitIdx l now).bind (fun i => l.get? (i + 1))) :=
  findCurrentAndNext_eq_spec l now

/-- Counterexample to C2 as stated: in `[A = [0,10), B = [5,10)]` at
`now = 5`, `now` equals `B`'s start and is before `B`'s end, yet `B` is not
returned as current (the earlier containing interval `A` is). -/
theorem c2_counterexample :
    (5 : Int) = (Interval.mk ['B'] 5 10).start ∧
    (5 : Int) < (Interval.mk ['B'] 5 10).stop ∧
    (findCurrentAndNext [Interval.mk ['A'] 0 10, Interval.mk ['B'] 5 10] 5).1 ≠
      some (Interval.mk ['B'] 5 10) := by
  decide

/-- C2 (amended): starts are inclusive and ends exclusive — an interval whose
start equals `now` (with `now` before its end) is returned as current
provided no earlier interval contains `now`; and an interval whose end
equals `now` is never returned as current. -/
theorem c2_boundary_semantics :
    (∀ (l₁ l₂ : List Interval) (iv : Interval) (now : Int),
      (∀ jv ∈ l₁, ¬(jv.start ≤ now ∧ now < jv.stop)) → now = iv.start →
      now < iv.stop → (findCurrentAndNext (l₁ ++ iv :: l₂) now).1 = some iv) ∧
    (∀ (l : List Interval) (now : Int) (iv : Interval), now = iv.stop →
      (findCurrentAndNext l now).1 ≠ some iv) := by
  constructor
  · intro l₁ l₂ iv now hmiss hs he
    exact findCurrent_first l₁ l₂ iv now hmiss (le_of_eq hs.symm) he
  · intro l now iv hstop hcur
    have := findCurrent_sound l now iv hcur
    omega

/-- Witness for C2 (amended), both conjuncts at concrete inputs. -/
theorem c2_witness :
    (findCurrentAndNext [Interval.mk ['A'] 0 3, Interval.mk ['B'] 5 10] 5).1 =
        some (Interval.mk ['B'] 5 10) ∧
      (findCurrentAndNext [Interval.mk ['A'] 0 3] 3).1 ≠ some (Interval.mk ['A'] 0 3) :=
  ⟨c2_boundary_semantics.1 [Interval.mk ['A'] 0 3] [] (Interval.mk ['B'] 5 10) 5
      (by decide) (by decide) (by decide),
    c2_boundary_semantics.2 [Interval.mk ['A'] 0 3] 3 (Interval.mk ['A'] 0 3) (by decide)⟩

/-! Remaining-time formatting (C8). -/

lemma data_append (a b : String) : (a ++ b).data = a.data ++ b.data := by
  cases a; cases b; rfl

lemma formatTimeRemaining_eq_spec (stop now : Int) :
    formatTimeRemaining stop now = specRemaining stop now := by
  simp only [formatTimeRemaining, specRemaining]
  split_ifs <;>
    first
      | rfl
      | omega
      | (apply String.ext
         simp only [data_append, List.append_assoc]
         rfl)

/-- Counterexample to C8 as stated: with end exactly 0 minutes (0 ms) after
now, the code returns "Ended just now", not "Ending now" (the `ms <= 0`
branch fires). -/
theorem c8_counterexample :
    formatTimeRemaining 0 0 = "Ended just now" ∧
      ("Ended just now" : String) ≠ "Ending now" := by
  constructor
  · rfl
  · decide

/-- C8 (amended): the rendering equals the spec's phrase construction
(hours = ⌊total/60⌋, minutes = total mod 60, total = ⌊ms/60000⌋, each phrase
omitted when zero); end exactly 90 minutes after now gives
"1 hours 30 minutes remaining"; end a positive fraction of a minute after
now gives "Ending now"; end at or before now gives "Ended just now". -/
theorem c8_remaining_semantics :
    (∀ stop now : Int, formatTimeRemaining stop now = specRemaining stop now) ∧
    (∀ stop now : Int, stop - now = 90 * 60000 →
      formatTimeRemaining stop now = "1 hours 30 minutes remaining") ∧
    (∀ stop now : Int, 0 < stop - now → stop - now < 60000 →
      formatTimeRemaining stop now = "Ending now") ∧
    (∀ stop now : Int, stop ≤ now → formatTimeRemaining stop now = "Ended just now") := by
  refine ⟨formatTimeRemaining_eq_spec, ?_, ?_, ?_⟩
  · intro stop now h
    simp only [formatTimeRemaining]
    rw [h]
    norm_num
    decide
  · intro stop now h1 h2
    simp only [formatTimeRemaining]
    split_ifs <;> first | rfl | omega
  · intro stop now h
    simp only [formatTimeRemaining]
    split_ifs <;> first | rfl | omega

/-- Witness for C8 (amended) at concrete inputs. -/
theorem c8_witness :
    formatTimeRemaining 5400000 0 = "1 hours 30 minutes remaining" ∧
    formatTimeRemaining 30000 0 = "Ending now" ∧
    formatTimeRemaining 0 5 = "Ended just now" :=
  ⟨c8_remaining_semantics.2.1 5400000 0 (by decide),
   c8_remaining_semantics.2.2.1 30000 0 (by decide) (by decide),
   c8_remaining_semantics.2.2.2 0 5 (by decide)⟩

/-! Header-value extraction (C4). -/

lemma jsSplitOn_ne_nil (sep : Char) (cs : JStr) : jsSplitOn sep cs ≠ [] := by
  induction cs with
  | nil => simp [jsSplitOn]
  | cons c t ih =>
      by_cases h : c == sep
      · simp [jsSplitOn, h]
      · simp only [jsSplitOn, h, if_false, Bool.false_eq_true]
        cases hsp : jsSplitOn sep t with
        | nil => exact absurd hsp ih
        | cons a b => simp

lemma jsSplitOn_head (sep : Char) (cs : JStr) :
    ∃ t, jsSplitOn sep cs = cs.takeWhile (fun c => !(c == sep)) :: t := by
  induction cs with
  | nil => exact ⟨[], rfl⟩
  | cons c t ih =>
      by_cases h : c == sep
      · refine ⟨jsSplitOn sep t, ?_⟩
        simp [jsSplitOn, h, List.takeWhile_cons]
      · obtain ⟨tl, htl⟩ := ih
        refine ⟨tl, ?_⟩
        simp [jsSplitOn, h, htl, List.takeWhile_cons]

lemma splitSecond_eq (line : JStr) :
    (match jsSplitOn ':' line with
     | _ :: p :: _ => some (jsTrim p)
     | _ => none) = betweenColons line := by
  induction line with
  | nil => rfl
  | cons c cs ih =>
      by_cases hc : c == ':'
      · obtain ⟨tl, htl⟩ := jsSplitOn_head ':' cs
        have hceq : c = ':' := by simpa using hc
        subst hceq
        simp [jsSplitOn, htl, betweenColons]
      · cases hsp : jsSplitOn ':' cs with
        | nil => exact absurd hsp (jsSplitOn_ne_nil ':' cs)
        | cons h t =>
            rw [hsp] at ih
            simp only [jsSplitOn, hc, if_false, hsp, betweenColons,
              List.dropWhile_cons, Bool.false_eq_true]
            cases t with
            | nil =>
                simp only [betweenColons] at ih
                simpa [hc] using ih
            | cons p t2 =>
                simp only [betweenColons] at ih
                simpa [hc] using ih

/-- Counterexample to C4 as stated: on the matched line "Date : 15:30" the
function returns the segment between the first and second colons ("15"),
not everything after the first colon ("15:30"). -/
theorem c4_counterexample :
    getHeaderValue ["Date : 15:30".data] "date".data = some "15".data ∧
    jsTrim (List.tail (("Date : 15:30".data).dropWhile (fun c => !(c == ':')))) =
      "15:30".data ∧
    "15".data ≠ "15:30".data := by
  decide

/-- C4 (amended): `getHeaderValue` case-insensitively prefix-matches a
trimmed line; on a match it returns the text strictly between the first and
the second colon of the raw line, trimmed (so a value containing a colon is
truncated at it); it returns null when no line matches or the matched line
has no colon. -/
theorem c4_header_value_between_colons (lines : List JStr) (label : JStr) :
    getHeaderValue lines label = specHeaderValue lines label := by
  simp only [getHeaderValue, specHeaderValue]
  cases hf : lines.find? (fun l => jsStartsWith (jsToLower (jsTrim l)) (jsToLower label)) with
  | none => rfl
  | some line => exact splitSecond_eq line

/-! Section extraction (C9). -/

lemma takeWhile_eq_findIdxO {α : Type} (p : α → Bool) (l : List α) :
    l.takeWhile (fun a => !(p a)) =
      (match findIdxO p l with
       | none => l
       | some j => l.take j) := by
  induction l with
  | nil => rfl
  | cons a t ih =>
      by_cases h : p a
      · simp [List.takeWhile_cons, findIdxO, h]
      · simp only [List.takeWhile_cons, h, Bool.not_false, if_true, findIdxO,
          if_neg, Bool.false_eq_true, ih]
        cases hf : findIdxO p t with
        | none => simp [hf]
        | some j => simp [hf, List.take_succ_cons]

/-- C9: `extractSection` returns the empty sequence when no trimmed line
starts with the label, and otherwise exactly the raw lines strictly between
the first label line and the next line whose trimmed form case-insensitively
ends in "details" + optional whitespace + colon and does not itself start
with the label — or all remaining lines when no such terminator exists. -/
theorem c9_extract_section_between (lines : List JStr) (startLabel : JStr) :
    extractSection lines startLabel = specExtract lines startLabel := by
  simp only [extractSection, specExtract]
  cases hf : findIdxO (fun l => jsStartsWith (jsTrim l) startLabel) lines with
  | none => rfl
  | some i =>
      have hpred : (fun l => !(detailsEnd (jsTrim l) && !jsStartsWith (jsTrim l) startLabel)) =
          (fun l => !(sectionStop startLabel l)) := rfl
      rw [hpred]
      exact takeWhile_eq_findIdxO (sectionStop startLabel) (lines.drop (i + 1))

/-! Interval-line parsing (C5, C6). -/

lemma tailAt_cons_succ (c : Char) (cs : JStr) (j : Nat) (hj : 1 ≤ j) :
    tailAt (c :: cs) (j + 1) = (jsDot c && tailAt cs j) := by
  simp only [tailAt, List.take_succ_cons, List.drop_succ_cons, List.all_cons]
  have h1 : decide (1 ≤ j + 1) = true := by simp
  have h2 : decide (1 ≤ j) = true := by simp [hj]
  rw [h1, h2]
  cases jsDot c <;> cases (cs.take j).all jsDot <;>
    cases (cs.drop j).head? == some ':' <;> cases (matchTail (cs.drop j).tail).isSome <;> rfl

lemma tailAt_cons_one (c : Char) (cs : JStr) :
    tailAt (c :: cs) 1 =
      (jsDot c && (cs.head? == some ':') && (matchTail cs.tail).isSome) := by
  simp only [tailAt, List.take_succ_cons, List.drop_succ_cons, List.take_zero,
    List.drop_zero, List.all_cons, List.all_nil]
  cases jsDot c <;> cases cs.head? == some ':' <;> cases (matchTail cs.tail).isSome <;> rfl

lemma scanSplit_step {c : Char} {cs nm pre : JStr} (hdot : jsDot c = true)
    (h1f : tailAt (c :: cs) 1 = false)
    (hex : ∃ i : Nat, 1 ≤ i ∧ i ≤ cs.length ∧ tailAt cs i = true ∧
      nm = (pre ++ [c]) ++ cs.take i ∧ ∀ j : Nat, 1 ≤ j → j < i → tailAt cs j = false) :
    ∃ i : Nat, 1 ≤ i ∧ i ≤ (c :: cs).length ∧ tailAt (c :: cs) i = true ∧
      nm = pre ++ (c :: cs).take i ∧
      ∀ j : Nat, 1 ≤ j → j < i → tailAt (c :: cs) j = false := by
  obtain ⟨i, hi1, hi2, hta, hnm, hmin⟩ := hex
  refine ⟨i + 1, by omega, by simp; omega, ?_, ?_, ?_⟩
  · rw [tailAt_cons_succ c cs i hi1, hdot, hta]
    rfl
  · rw [List.take_succ_cons, hnm]
    simp
  · intro j hj1 hj2
    match j, hj1 with
    | 1, _ => exact h1f
    | (j' + 1 + 1), _ =>
        have hj' : 1 ≤ j' + 1 := by omega
        rw [tailAt_cons_succ c cs (j' + 1) hj']
        rw [hmin (j' + 1) hj' (by omega)]
        simp

lemma scanSplit_some (t : JStr) : ∀ (pre nm : JStr) (tp : TsPair),
    scanSplit pre t = some (nm, tp) →
    ∃ i : Nat, 1 ≤ i ∧ i ≤ t.length ∧ tailAt t i = true ∧ nm = pre ++ t.take i ∧
      ∀ j : Nat, 1 ≤ j → j < i → tailAt t j = false := by
  induction t with
  | nil =>
      intro pre nm tp h
      simp [scanSplit] at h
  | cons c cs ih =>
      intro pre nm tp h
      simp only [scanSplit] at h
      by_cases hdot : jsDot c
      case neg =>
        rw [if_neg (by simp [hdot])] at h
        simp at h
      case pos =>
        rw [if_pos (by simp [hdot])] at h
        split at h
        next r2 =>
          cases hmt : matchTail r2 with
          | some tp2 =>
              rw [hmt] at h
              dsimp only at h
              simp only [Option.some.injEq, Prod.mk.injEq] at h
              obtain ⟨hnm, htp⟩ := h
              refine ⟨1, le_refl 1, by simp, ?_, ?_, ?_⟩
              · rw [tailAt_cons_one]
                simp [hdot, hmt]
              · rw [List.take_succ_cons, List.take_zero, ← hnm]
              · intro j h1 h2
                omega
          | none =>
              rw [hmt] at h
              dsimp only at h
              refine scanSplit_step hdot ?_ (ih _ _ _ h)
              rw [tailAt_cons_one]
              simp [hmt]
        next hne =>
          refine scanSplit_step hdot ?_ (ih _ _ _ h)
          rw [tailAt_cons_one]
          cases hcs : cs with
          | nil => simp
          | cons c2 r2 =>
              have hc2 : ¬ (c2 = ':') := by
                intro heq
                exact hne r2 (by rw [hcs, heq])
              simp [hc2]

/-- C6: the example line parses to name "Prathama" with start/end the
converted source instants, and every line whose trimmed form fails the
`<name>: YYYY/MM/DD HH:MM to YYYY/MM/DD HH:MM` grammar (no valid split
point) yields `none` — the total function never throws. -/
theorem c6_parse_example_and_rejects :
    parseIntervalLine "Prathama: 2025/12/04 15:14 to 2025/12/05 11:26".data =
      some ⟨"Prathama".data, makeIstFromPortland 2025 12 4 15 14,
        makeIstFromPortland 2025 12 5 11 26⟩ ∧
    ∀ line : JStr, grammarMatch (jsTrim line) = false → parseIntervalLine line = none := by
  constructor
  · decide
  · intro line hg
    cases hp : parseIntervalLine line with
    | none => rfl
    | some iv =>
        exfalso
        simp only [parseIntervalLine] at hp
        cases hs : scanSplit [] (jsTrim line) with
        | none => rw [hs] at hp; simp at hp
        | some r =>
            obtain ⟨nm, tp⟩ := r
            obtain ⟨i, hi1, hi2, hta, -, -⟩ := scanSplit_some (jsTrim line) [] nm tp hs
            have hgt : grammarMatch (jsTrim line) = true := by
              simp only [grammarMatch, List.any_eq_true]
              exact ⟨i, List.mem_range.mpr (by omega), hta⟩
            rw [hg] at hgt
            simp at hgt

/-- Witness for C6's rejection clause at a concrete non-matching line. -/
theorem c6_witness : parseIntervalLine "garbage".data = none :=
  c6_parse_example_and_rejects.2 "garbage".data (by decide)

/-- Counterexample to C5 as stated: the line
"a:b: 2025/12/04 15:14 to 2025/12/05 11:26" parses successfully with name
"a:b", which contains a colon and differs from the trimmed text up to the
first colon ("a"). -/
theorem c5_counterexample :
    (parseIntervalLine "a:b: 2025/12/04 15:14 to 2025/12/05 11:26".data).map Interval.name =
      some "a:b".data ∧
    jsTrim (("a:b: 2025/12/04 15:14 to 2025/12/05 11:26".data).takeWhile
      (fun c => !(c == ':'))) = "a".data ∧
    ("a:b".data : JStr) ≠ "a".data ∧ ':' ∈ "a:b".data := by
  decide

/-- C5 (amended): the returned name is the trimmed SHORTEST prefix of the
trimmed line that is followed by a colon and a well-formed timestamp tail
(the lazy `(.+?)`); it equals the text up to the first colon only when the
remainder after that colon matches, and may itself contain colons. -/
theorem c5_name_is_minimal_split :
    ∀ (line : JStr) (iv : Interval), parseIntervalLine line = some iv →
    ∃ i : Nat, 1 ≤ i ∧ i ≤ (jsTrim line).length ∧ tailAt (jsTrim line) i = true ∧
      iv.name = jsTrim ((jsTrim line).take i) ∧
      ∀ j : Nat, 1 ≤ j → j < i → tailAt (jsTrim line) j = false := by
  intro line iv hp
  simp only [parseIntervalLine] at hp
  cases hs : scanSplit [] (jsTrim line) with
  | none => rw [hs] at hp; simp at hp
  | some r =>
      obtain ⟨nm, tp⟩ := r
      rw [hs] at hp
      dsimp only at hp
      simp only [Option.some.injEq] at hp
      obtain ⟨i, hi1, hi2, hta, hnm, hmin⟩ := scanSplit_some (jsTrim line) [] nm tp hs
      refine ⟨i, hi1, hi2, hta, ?_, hmin⟩
      rw [← hp]
      simp only [List.nil_append] at hnm
      rw [hnm]

/-- Witness for C5 (amended) at the example line. -/
theorem c5_witness :
    ∃ i : Nat, 1 ≤ i ∧
      i ≤ (jsTrim "Prathama: 2025/12/04 15:14 to 2025/12/05 11:26".data).length ∧
      tailAt (jsTrim "Prathama: 2025/12/04 15:14 to 2025/12/05 11:26".data) i = true ∧
      (Interval.mk "Prathama".data (makeIstFromPortland 2025 12 4 15 14)
          (makeIstFromPortland 2025 12 5 11 26)).name =
        jsTrim ((jsTrim "Prathama: 2025/12/04 15:14 to 2025/12/05 11:26".data).take i) ∧
      ∀ j : Nat, 1 ≤ j → j < i →
        tailAt (jsTrim "Prathama: 2025/12/04 15:14 to 2025/12/05 11:26".data) j = false :=
  c5_name_is_minimal_split _ _ (by decide)

/-! Backend-timestamp conversion (C7, C10). -/

lemma findTs_eq_none (cs : JStr)
    (h : ∀ i : Nat, i ≤ cs.length → matchTsAt (cs.drop i) = none) : findTs cs = none := by
  induction cs with
  | nil => rfl
  | cons c cs ih =>
      have h0 : matchTsAt (c :: cs) = none := by simpa using h 0 (by simp)
      simp only [findTs, h0]
      exact ih (fun i hi => by simpa using h (i + 1) (by simpa using Nat.succ_le_succ hi))

/-- C7: when the `YYYY/MM/DD HH:MM:SS` pattern occurs nowhere in the input
(no suffix matches it), `convertBackendTimestampPstToIst` returns the input
unchanged — the degraded-but-visible fallback, which never throws. -/
theorem c7_no_pattern_returns_input :
    ∀ rawTs : JStr, (∀ i : Nat, i ≤ rawTs.length → matchTsAt (rawTs.drop i) = none) →
      convertBackendTimestampPstToIst rawTs = rawTs := by
  intro rawTs h
  simp only [convertBackendTimestampPstToIst, findTs_eq_none rawTs h]

/-- Witness for C7 at a concrete pattern-free input. -/
theorem c7_witness :
    convertBackendTimestampPstToIst "no timestamp here".data = "no timestamp here".data :=
  c7_no_pattern_returns_input "no timestamp here".data (by
    intro i hi
    have hlen : ("no timestamp here".data).length = 17 := rfl
    rw [hlen] at hi
    interval_cases i <;> rfl)

/-- C10 (implicit): the backend-timestamp regex is unanchored, so whenever a
timestamp occurs anywhere in the input, the output is exactly the IST
rendering of the (first) matched six fields — surrounding text is silently
dropped, and for an input that properly contains a timestamp the output is
neither the raw input nor an in-place conversion of it. -/
theorem c10_unanchored_match_drops_context :
    (∀ (rawTs : JStr) (y mo d hh mm ss : Int),
      findTs rawTs = some (y, mo, d, hh, mm, ss) →
      convertBackendTimestampPstToIst rawTs = istFormatChars y mo d hh mm ss) ∧
    convertBackendTimestampPstToIst "backend: 2025/12/01 15:15:42 (PST)".data =
      "2025/12/02 04:45:42".data ∧
    convertBackendTimestampPstToIst "backend: 2025/12/01 15:15:42 (PST)".data ≠
      "backend: 2025/12/01 15:15:42 (PST)".data := by
  refine ⟨?_, by decide, by decide⟩
  intro rawTs y mo d hh mm ss h
  simp only [convertBackendTimestampPstToIst, h, istFormatChars, MS_PER_HOUR,
    MS_PER_MIN, UTC_TO_IST_H, UTC_TO_IST_M, PST_TO_UTC_H]
  ring_nf

/-- Witness for C10's universal clause at a concrete input. -/
theorem c10_witness :
    convertBackendTimestampPstToIst "2025/12/01 15:15:42".data =
      istFormatChars 2025 12 1 15 15 42 :=
  c10_unanchored_match_drops_context.1 "2025/12/01 15:15:42".data 2025 12 1 15 15 42
    (by decide)

end Script
